import Mathlib

/-!
Shallow embedding of the ledger/authorization core of `src/bot.py`
(DiscordCryptoBot).

Modelling conventions:
* Monetary amounts (`Float` in the Python source) are modelled as `Int`
  with exact arithmetic; the source only adds, subtracts and compares
  amounts, which this models faithfully up to floating-point rounding.
* The SQLAlchemy tables `players`, `games`, `game_players` become lists
  kept in insertion (rowid) order; `query(...).first()` is `List.find?`
  on that order, and mutating the ORM row returned by `first()` is an
  update of the first matching list entry.
* The code only ever creates a `Game` row when `query(Game).first()`
  returns nothing, so at most one `games` row ever exists: the `games`
  table is modelled as `Option Game`.
* Discord I/O is dropped; each command handler returns the new state
  together with a result value mirroring the message it would send.
* The Bitcoin RPC call in `deposit` is an external collaborator; its
  outcome (success or `JSONRPCException`) is passed in as a `Bool`.
* `hmac.compare_digest` on Python `str` arguments requires both to be
  ASCII-only and raises `TypeError` otherwise; on ASCII strings it runs
  the constant-time loop of CPython's `_tscmp` over the byte sequences.
  Both behaviours are embedded, with an explicit step counter for the
  timing model of the comparison loop.
-/

namespace CryptoBot

/-- Python exceptions surfaced inside the handlers: `TypeError` from
`hmac.compare_digest` on non-ASCII `str` input, and the integrity error a
`session.commit()` raises when an insert violates a primary-key
constraint. -/
inductive PyError
  | typeError
  | integrityError
deriving DecidableEq, Repr

/-- Row of the `players` table: `discord_id` (unique key), `balance`, `otp_secret`. -/
structure Player where
  discord_id : String
  balance : Int
  otp_secret : String
deriving DecidableEq, Repr

/-- Row of the `games` table; `created_at` is dropped (never read by the core). -/
structure Game where
  pot : Int
deriving DecidableEq, Repr

/-- Row of the `game_players` table: one contribution record, with composite
primary key `(game_id, player_id)`. The `game_id` column itself is omitted
because at most one `games` row is ever created and it is never deleted, so
every stored row carries that single game's id and the key constraint
reduces to: no two rows share a `player_id` while that game row exists. -/
structure GamePlayer where
  player_id : String
  bet_amount : Int
deriving DecidableEq, Repr

/-- The database state: the three tables, in insertion (rowid) order. -/
structure LState where
  players : List Player
  game : Option Game
  game_players : List GamePlayer
deriving DecidableEq, Repr

/-- The freshly created database (`Base.metadata.create_all`). -/
def initState : LState := ⟨[], none, []⟩

/-- Bytes of a string; on ASCII strings these are the UTF-8 bytes Python compares. -/
def strBytes (s : String) : List Nat := s.data.map Char.toNat

/-- Predicate from `hmac.compare_digest`: a Python `str` argument must be ASCII-only. -/
def isAscii (s : String) : Bool := s.data.all (fun c => decide (c.toNat < 128))

/-- Accumulator loop of CPython's `_tscmp`: OR together the XORs of all byte
pairs, never exiting early. -/
def tscmpAcc : Nat → List Nat → List Nat → Nat
  | acc, x :: xs, y :: ys => tscmpAcc (acc ||| (x ^^^ y)) xs ys
  | acc, _, _ => acc

/-- Number of loop iterations `tscmpAcc` performs on the given byte lists. -/
def tscmpSteps : List Nat → List Nat → Nat
  | _ :: xs, _ :: ys => tscmpSteps xs ys + 1
  | _, _ => 0

/-- CPython `_tscmp` on byte sequences: equal lengths run the accumulator over
the pair; unequal lengths run it over `b` against itself with a poisoned
accumulator, so the loop length never reveals anything about `a`. -/
def tscmp (a b : List Nat) : Bool :=
  if a.length = b.length then tscmpAcc 0 a b == 0 else tscmpAcc 1 b b == 0

/-- Loop iterations `tscmp` spends comparing `a` and `b` (the timing model). -/
def tscmpTime (a b : List Nat) : Nat :=
  if a.length = b.length then tscmpSteps a b else tscmpSteps b b

/-- Python `hmac.compare_digest` on two `str` values: `TypeError` unless both
are ASCII-only, otherwise the constant-time byte comparison. -/
def compare_digest (a b : String) : Except PyError Bool :=
  if isAscii a && isAscii b then .ok (tscmp (strBytes a) (strBytes b))
  else .error .typeError

/-- Source `verify_otp(secret, otp_code)`: `hmac.compare_digest(secret, otp_code)`. -/
def verify_otp (secret otp_code : String) : Except PyError Bool :=
  compare_digest secret otp_code

/-- Model of `session.query(Player).filter_by(discord_id=uid).first()`. -/
def findPlayer (uid : String) (ps : List Player) : Option Player :=
  ps.find? (fun p => p.discord_id == uid)

/-- Pot of the single `games` row, 0 if the row was never created. This is
the pot of the `Game` that `bet` ensures exists (`query(Game).first()`,
creating a fresh row with pot 0.0 when the table is empty). -/
def potOf (s : LState) : Int :=
  match s.game with
  | none => 0
  | some g => g.pot

/-- Mutating the `balance` field of the ORM row returned by `first()`:
only the first row whose `discord_id` matches is changed. -/
def updateBalance (uid : String) (f : Int → Int) : List Player → List Player
  | [] => []
  | p :: ps =>
    if p.discord_id == uid then { p with balance := f p.balance } :: ps
    else p :: updateBalance uid f ps

/-- Outcome of the `!join` command. -/
inductive JoinRes
  | joined (otp_secret : String)
  | alreadyJoined
deriving DecidableEq, Repr

/-- Source `join`: create a `Player` with balance 0 and a fresh secret unless
the identity already exists. The randomly generated secret is a parameter. -/
def join (uid freshSecret : String) (s : LState) : LState × JoinRes :=
  match findPlayer uid s.players with
  | none =>
    ({ s with players := s.players ++ [⟨uid, 0, freshSecret⟩] }, .joined freshSecret)
  | some _ => (s, .alreadyJoined)

/-- Source `balance`: pure read of the caller's balance, `none` if not joined. -/
def balance (uid : String) (s : LState) : Option Int :=
  (findPlayer uid s.players).map (fun p => p.balance)

/-- Outcome of the `!deposit` command. -/
inductive DepositRes
  | notJoined
  | invalidOtp
  | txFailed
  | ok (newBalance : Int)
  | raised (e : PyError)
deriving DecidableEq, Repr

/-- Source `deposit(address, amount, otp_code)`: look the player up, verify the
OTP, invoke the external RPC send (outcome `rpcOk`), and on success add
`amount` to the balance. A `TypeError` escaping `verify_otp` aborts the
handler before any mutation. -/
def deposit (uid address : String) (amount : Int) (otp_code : String)
    (rpcOk : Bool) (s : LState) : LState × DepositRes :=
  match findPlayer uid s.players with
  | none => (s, .notJoined)
  | some p =>
    match verify_otp p.otp_secret otp_code with
    | .error e => (s, .raised e)
    | .ok false => (s, .invalidOtp)
    | .ok true =>
      if rpcOk then
        ({ s with players := updateBalance uid (fun b => b + amount) s.players },
         .ok (p.balance + amount))
      else (s, .txFailed)

/-- Outcome of the `!bet` command. -/
inductive BetRes
  | notJoined
  | invalidOtp
  | insufficient
  | ok (newBalance pot : Int)
  | raised (e : PyError)
deriving DecidableEq, Repr

/-- Source `bet(amount, otp_code)`: after lookup and OTP check, require
`player.balance >= amount`, create the `Game` row if none exists, move
`amount` from the balance to the pot and append a `GamePlayer` record.
The composite primary key `(game_id, player_id)` of `game_players` makes
the insert fail when the player already has a contribution row for the
existing game: `session.commit()` raises an integrity error and the whole
pending transaction (balance decrement, pot increment, insert) is rolled
back, persisting nothing. When no `Game` row existed, a fresh row with a
fresh id is created (and committed) first, so no key conflict is possible
on that path. -/
def bet (uid : String) (amount : Int) (otp_code : String) (s : LState) :
    LState × BetRes :=
  match findPlayer uid s.players with
  | none => (s, .notJoined)
  | some p =>
    match verify_otp p.otp_secret otp_code with
    | .error e => (s, .raised e)
    | .ok false => (s, .invalidOtp)
    | .ok true =>
      if amount ≤ p.balance then
        if s.game.isSome && s.game_players.any (fun c => c.player_id == uid) then
          (s, .raised .integrityError)
        else
          ({ players := updateBalance uid (fun b => b - amount) s.players,
             game := some ⟨potOf s + amount⟩,
             game_players := s.game_players ++ [⟨uid, amount⟩] },
           .ok (p.balance - amount) (potOf s + amount))
      else (s, .insufficient)

/-- Outcome of the `!win` command. -/
inductive WinRes
  | notJoined
  | noActivePot
  | ok (newBalance : Int)
deriving DecidableEq, Repr

/-- Source `win`: if a `Game` row exists and `game.pot > 0`, add the pot to the
caller's balance and set the pot to 0. The `Game` row and all `GamePlayer`
records are left in place. -/
def win (uid : String) (s : LState) : LState × WinRes :=
  match findPlayer uid s.players with
  | none => (s, .notJoined)
  | some p =>
    match s.game with
    | some g =>
      if 0 < g.pot then
        ({ s with players := updateBalance uid (fun b => b + g.pot) s.players,
                  game := some ⟨0⟩ },
         .ok (p.balance + g.pot))
      else (s, .noActivePot)
    | none => (s, .noActivePot)

/-- Ordering used by `ORDER BY balance DESC`: `p` may come before `q` when
`p`'s balance is at least `q`'s. -/
def balGE (p q : Player) : Prop := q.balance ≤ p.balance

instance : DecidableRel balGE := fun p q => Int.decLe q.balance p.balance

instance : IsTotal Player balGE := ⟨fun p q => le_total q.balance p.balance⟩

instance : IsTrans Player balGE := ⟨fun _ _ _ h1 h2 => le_trans h2 h1⟩

/-- Model of `ORDER BY balance DESC`: the source query has no secondary sort
key, so SQL leaves the relative order of equal balances unspecified; an
executable embedding must pick one concrete refinement, and this one is a
stable sort, returning ties in rowid (insertion) order. Only the
balance-descending shape of the output is guaranteed by the source. -/
def orderByBalanceDesc (ps : List Player) : List Player :=
  ps.insertionSort balGE

/-- Source `stats`: top 10 players by balance descending, as (id, balance)
pairs. Pure read. -/
def stats (s : LState) : List (String × Int) :=
  ((orderByBalanceDesc s.players).take 10).map (fun p => (p.discord_id, p.balance))

/-- Source `audit`: full dump of all players in rowid order. Pure read. -/
def audit (s : LState) : List (String × Int) :=
  s.players.map (fun p => (p.discord_id, p.balance))

/-- One user command, with the environment inputs (fresh secret, RPC outcome)
it consumes. `monitor_tx` never touches the database and is omitted. -/
inductive Op
  | join (uid freshSecret : String)
  | balance (uid : String)
  | deposit (uid address : String) (amount : Int) (otp_code : String) (rpcOk : Bool)
  | bet (uid : String) (amount : Int) (otp_code : String)
  | win (uid : String)
  | stats
  | audit
deriving DecidableEq, Repr

/-- State transition of one command (reads leave the state unchanged; a
handler aborted by a `TypeError` has made no mutation yet). -/
def step (op : Op) (s : LState) : LState :=
  match op with
  | .join uid sec => (join uid sec s).1
  | .balance _ => s
  | .deposit uid addr amt code rpcOk => (deposit uid addr amt code rpcOk s).1
  | .bet uid amt code => (bet uid amt code s).1
  | .win uid => (win uid s).1
  | .stats => s
  | .audit => s

/-- Run a sequence of commands from a state. -/
def run (ops : List Op) (s : LState) : LState :=
  ops.foldl (fun st op => step op st) s

/-- Sum of all `bet_amount` fields of the `game_players` records. -/
def sumContrib (s : LState) : Int :=
  (s.game_players.map (fun c => c.bet_amount)).sum

/-- Sum of all player balances. -/
def totalBal (ps : List Player) : Int :=
  (ps.map (fun p => p.balance)).sum

/-- Total value in the system: all balances plus the pot. -/
def totalValue (s : LState) : Int :=
  totalBal s.players + potOf s

/-- The command credits (deposits) only a non-negative amount. -/
def creditNonneg : Op → Prop
  | .deposit _ _ amount _ _ => 0 ≤ amount
  | _ => True

/-- The command bets only a non-negative amount. -/
def betNonneg : Op → Prop
  | .bet _ amount _ => 0 ≤ amount
  | _ => True

/-- The command is not a settlement (`!win`). -/
def noSettle : Op → Prop
  | .win _ => False
  | _ => True

instance : DecidablePred creditNonneg := fun op =>
  match op with
  | .join _ _ => inferInstanceAs (Decidable True)
  | .balance _ => inferInstanceAs (Decidable True)
  | .deposit _ _ a _ _ => inferInstanceAs (Decidable (0 ≤ a))
  | .bet _ _ _ => inferInstanceAs (Decidable True)
  | .win _ => inferInstanceAs (Decidable True)
  | .stats => inferInstanceAs (Decidable True)
  | .audit => inferInstanceAs (Decidable True)

instance : DecidablePred betNonneg := fun op =>
  match op with
  | .join _ _ => inferInstanceAs (Decidable True)
  | .balance _ => inferInstanceAs (Decidable True)
  | .deposit _ _ _ _ _ => inferInstanceAs (Decidable True)
  | .bet _ a _ => inferInstanceAs (Decidable (0 ≤ a))
  | .win _ => inferInstanceAs (Decidable True)
  | .stats => inferInstanceAs (Decidable True)
  | .audit => inferInstanceAs (Decidable True)

instance : DecidablePred noSettle := fun op =>
  match op with
  | .join _ _ => inferInstanceAs (Decidable True)
  | .balance _ => inferInstanceAs (Decidable True)
  | .deposit _ _ _ _ _ => inferInstanceAs (Decidable True)
  | .bet _ _ _ => inferInstanceAs (Decidable True)
  | .win _ => inferInstanceAs (Decidable False)
  | .stats => inferInstanceAs (Decidable True)
  | .audit => inferInstanceAs (Decidable True)

/- ### Helper lemmas -/

lemma lor_eq_zero_iff (m n : Nat) : m ||| n = 0 ↔ m = 0 ∧ n = 0 := by
  constructor
  · intro h
    have hb : ∀ k, (m.testBit k || n.testBit k) = false := by
      intro k
      rw [← Nat.testBit_lor, h, Nat.zero_testBit]
    refine ⟨Nat.eq_of_testBit_eq fun k => ?_, Nat.eq_of_testBit_eq fun k => ?_⟩
    · rw [Nat.zero_testBit]
      exact (Bool.or_eq_false_iff.mp (hb k)).1
    · rw [Nat.zero_testBit]
      exact (Bool.or_eq_false_iff.mp (hb k)).2
  · rintro ⟨rfl, rfl⟩
    rfl

lemma tscmpAcc_eq_zero_iff (xs : List Nat) :
    ∀ (acc : Nat) (ys : List Nat), xs.length = ys.length →
      (tscmpAcc acc xs ys = 0 ↔ acc = 0 ∧ xs = ys) := by
  induction xs with
  | nil =>
    intro acc ys h
    cases ys with
    | nil => simp [tscmpAcc]
    | cons y ys => simp at h
  | cons x xs ih =>
    intro acc ys h
    cases ys with
    | nil => simp at h
    | cons y ys =>
      have h' : xs.length = ys.length := by
        simpa using h
      simp only [tscmpAcc]
      rw [ih _ ys h', lor_eq_zero_iff, Nat.xor_eq_zero, List.cons_eq_cons]
      tauto

lemma tscmp_eq_true_iff (a b : List Nat) : tscmp a b = true ↔ a = b := by
  unfold tscmp
  by_cases h : a.length = b.length
  · rw [if_pos h, beq_iff_eq, tscmpAcc_eq_zero_iff a 0 b h]
    simp
  · rw [if_neg h, beq_iff_eq]
    constructor
    · intro hzero
      have h1 := (tscmpAcc_eq_zero_iff b 1 b rfl).mp hzero
      exact absurd h1.1 one_ne_zero
    · intro hab
      exact absurd (congrArg List.length hab) h

lemma char_toNat_injective : Function.Injective Char.toNat := fun a b h =>
  Char.eq_of_val_eq (UInt32.ext h)

lemma strBytes_inj {a b : String} (h : strBytes a = strBytes b) : a = b := by
  apply String.ext
  exact List.map_injective_iff.mpr char_toNat_injective h

lemma tscmp_strBytes (a b : String) : tscmp (strBytes a) (strBytes b) = (a == b) := by
  rw [Bool.eq_iff_iff, tscmp_eq_true_iff, beq_iff_eq]
  constructor
  · exact strBytes_inj
  · intro h
    rw [h]

lemma verify_otp_ascii (s c : String) (hs : isAscii s = true) (hc : isAscii c = true) :
    verify_otp s c = .ok (s == c) := by
  unfold verify_otp compare_digest
  rw [hs, hc]
  simp [tscmp_strBytes]

lemma tscmpSteps_eq (xs : List Nat) :
    ∀ ys : List Nat, xs.length = ys.length → tscmpSteps xs ys = ys.length := by
  induction xs with
  | nil =>
    intro ys h
    cases ys with
    | nil => rfl
    | cons y ys => simp at h
  | cons x xs ih =>
    intro ys h
    cases ys with
    | nil => simp at h
    | cons y ys =>
      have h' : xs.length = ys.length := by
        simpa using h
      simp only [tscmpSteps, List.length_cons]
      rw [ih ys h']

lemma tscmpTime_eq (a b : List Nat) : tscmpTime a b = b.length := by
  unfold tscmpTime
  by_cases h : a.length = b.length
  · rw [if_pos h, tscmpSteps_eq a b h]
  · rw [if_neg h, tscmpSteps_eq b b rfl]

lemma findPlayer_cons (p : Player) (ps : List Player) (uid : String) :
    findPlayer uid (p :: ps) =
      if p.discord_id == uid then some p else findPlayer uid ps := by
  unfold findPlayer
  rw [List.find?_cons]
  by_cases h : (p.discord_id == uid) = true
  · rw [if_pos h, h]
  · rw [if_neg h, Bool.eq_false_iff.mpr h]

lemma findPlayer_mem {uid : String} {ps : List Player} {p : Player}
    (h : findPlayer uid ps = some p) : p ∈ ps :=
  List.mem_of_find?_eq_some h

lemma mem_updateBalance (uid : String) (f : Int → Int) :
    ∀ (ps : List Player) (q : Player), q ∈ updateBalance uid f ps →
      q ∈ ps ∨ ∃ p, findPlayer uid ps = some p ∧
        q = { p with balance := f p.balance } := by
  intro ps
  induction ps with
  | nil =>
    intro q hq
    simp [updateBalance] at hq
  | cons p ps ih =>
    intro q hq
    rw [findPlayer_cons]
    by_cases h : (p.discord_id == uid) = true
    · rw [updateBalance, if_pos h] at hq
      rw [if_pos h]
      rcases List.mem_cons.mp hq with rfl | hq
      · exact Or.inr ⟨p, rfl, rfl⟩
      · exact Or.inl (List.mem_cons_of_mem p hq)
    · rw [updateBalance, if_neg h] at hq
      rw [if_neg h]
      rcases List.mem_cons.mp hq with rfl | hq
      · exact Or.inl (List.mem_cons_self q ps)
      · rcases ih q hq with hmem | ⟨p', hp', rfl⟩
        · exact Or.inl (List.mem_cons_of_mem p hmem)
        · exact Or.inr ⟨p', hp', rfl⟩

lemma findPlayer_updateBalance (uid : String) (f : Int → Int) :
    ∀ ps : List Player, findPlayer uid (updateBalance uid f ps) =
      (findPlayer uid ps).map (fun p => { p with balance := f p.balance }) := by
  intro ps
  induction ps with
  | nil => rfl
  | cons p ps ih =>
    by_cases h : (p.discord_id == uid) = true
    · rw [updateBalance, if_pos h, findPlayer_cons, findPlayer_cons, if_pos h]
      have hid : ({ p with balance := f p.balance } : Player).discord_id = p.discord_id := rfl
      rw [hid, if_pos h]
      rfl
    · rw [updateBalance, if_neg h, findPlayer_cons, findPlayer_cons, if_neg h, if_neg h, ih]

lemma totalBal_cons (p : Player) (ps : List Player) :
    totalBal (p :: ps) = p.balance + totalBal ps := by
  simp [totalBal]

lemma totalBal_updateBalance (uid : String) (f : Int → Int) :
    ∀ (ps : List Player) (p : Player), findPlayer uid ps = some p →
      totalBal (updateBalance uid f ps) = totalBal ps + (f p.balance - p.balance) := by
  intro ps
  induction ps with
  | nil =>
    intro p hp
    simp [findPlayer] at hp
  | cons r ps ih =>
    intro p hp
    rw [findPlayer_cons] at hp
    by_cases h : (r.discord_id == uid) = true
    · rw [if_pos h] at hp
      injection hp with hp
      subst hp
      rw [updateBalance, if_pos h, totalBal_cons, totalBal_cons]
      show f r.balance + totalBal ps = r.balance + totalBal ps + (f r.balance - r.balance)
      ring
    · rw [if_neg h] at hp
      rw [updateBalance, if_neg h, totalBal_cons, totalBal_cons, ih p hp]
      ring

/- ### Case analyses of the command handlers -/

lemma join_split (uid sec : String) (s : LState) :
    (findPlayer uid s.players = none ∧
      join uid sec s =
        ({ s with players := s.players ++ [⟨uid, 0, sec⟩] }, .joined sec)) ∨
    join uid sec s = (s, .alreadyJoined) := by
  unfold join
  split
  · rename_i hfind
    exact Or.inl ⟨hfind, rfl⟩
  · exact Or.inr rfl

lemma deposit_split (uid addr : String) (amt : Int) (code : String)
    (rpcOk : Bool) (s : LState) :
    (∃ r, deposit uid addr amt code rpcOk s = (s, r) ∧ ∀ nb, r ≠ .ok nb) ∨
    ∃ p, findPlayer uid s.players = some p ∧
      verify_otp p.otp_secret code = .ok true ∧ rpcOk = true ∧
      deposit uid addr amt code rpcOk s =
        ({ s with players := updateBalance uid (fun b => b + amt) s.players },
         .ok (p.balance + amt)) := by
  unfold deposit
  split
  · exact Or.inl ⟨_, rfl, fun nb h => by cases h⟩
  · rename_i p hfind
    split
    · exact Or.inl ⟨_, rfl, fun nb h => by cases h⟩
    · exact Or.inl ⟨_, rfl, fun nb h => by cases h⟩
    · rename_i hv
      by_cases hrpc : rpcOk = true
      · rw [if_pos hrpc]
        exact Or.inr ⟨p, hfind, hv, hrpc, rfl⟩
      · rw [if_neg hrpc]
        exact Or.inl ⟨_, rfl, fun nb h => by cases h⟩

lemma bet_split (uid : String) (amt : Int) (code : String) (s : LState) :
    (∃ r, bet uid amt code s = (s, r) ∧ ∀ nb pt, r ≠ .ok nb pt) ∨
    ∃ p, findPlayer uid s.players = some p ∧
      verify_otp p.otp_secret code = .ok true ∧ amt ≤ p.balance ∧
      (s.game.isSome && s.game_players.any (fun c => c.player_id == uid)) = false ∧
      bet uid amt code s =
        ({ players := updateBalance uid (fun b => b - amt) s.players,
           game := some ⟨potOf s + amt⟩,
           game_players := s.game_players ++ [⟨uid, amt⟩] },
         .ok (p.balance - amt) (potOf s + amt)) := by
  unfold bet
  split
  · exact Or.inl ⟨_, rfl, fun nb pt h => by cases h⟩
  · rename_i p hfind
    split
    · exact Or.inl ⟨_, rfl, fun nb pt h => by cases h⟩
    · exact Or.inl ⟨_, rfl, fun nb pt h => by cases h⟩
    · rename_i hv
      by_cases hle : amt ≤ p.balance
      · rw [if_pos hle]
        by_cases hdup :
            (s.game.isSome && s.game_players.any (fun c => c.player_id == uid)) = true
        · rw [if_pos hdup]
          exact Or.inl ⟨_, rfl, fun nb pt h => by cases h⟩
        · rw [if_neg hdup]
          exact Or.inr ⟨p, hfind, hv, hle, Bool.eq_false_iff.mpr hdup, rfl⟩
      · rw [if_neg hle]
        exact Or.inl ⟨_, rfl, fun nb pt h => by cases h⟩

lemma win_split (uid : String) (s : LState) :
    (∃ r, win uid s = (s, r) ∧ ∀ nb, r ≠ .ok nb) ∨
    ∃ p g, findPlayer uid s.players = some p ∧ s.game = some g ∧ 0 < g.pot ∧
      win uid s =
        ({ s with players := updateBalance uid (fun b => b + g.pot) s.players,
                  game := some ⟨0⟩ },
         .ok (p.balance + g.pot)) := by
  unfold win
  split
  · exact Or.inl ⟨_, rfl, fun nb h => by cases h⟩
  · rename_i p hfind
    split
    · rename_i g hg
      by_cases hpot : 0 < g.pot
      · rw [if_pos hpot]
        exact Or.inr ⟨p, g, hfind, hg, hpot, rfl⟩
      · rw [if_neg hpot]
        exact Or.inl ⟨_, rfl, fun nb h => by cases h⟩
    · exact Or.inl ⟨_, rfl, fun nb h => by cases h⟩

/- ### Invariant preservation for balances (claim C1) -/

lemma step_preserves_nonneg (op : Op) (s : LState) (hop : creditNonneg op)
    (hinv : ∀ p ∈ s.players, 0 ≤ p.balance) :
    ∀ q ∈ (step op s).players, 0 ≤ q.balance := by
  cases op with
  | join uid sec =>
    intro q hq
    simp only [step] at hq
    rcases join_split uid sec s with ⟨hfind, hj⟩ | hj
    · rw [hj] at hq
      replace hq : q ∈ s.players ++ [⟨uid, 0, sec⟩] := hq
      rcases List.mem_append.mp hq with hq | hq
      · exact hinv q hq
      · rw [List.mem_singleton.mp hq]
    · rw [hj] at hq
      exact hinv q hq
  | balance uid =>
    exact hinv
  | deposit uid addr amt code rpcOk =>
    intro q hq
    have hamt : 0 ≤ amt := hop
    simp only [step] at hq
    rcases deposit_split uid addr amt code rpcOk s with ⟨r, hd, _⟩ | ⟨p, hfind, hv, hrpc, hd⟩
    · rw [hd] at hq
      exact hinv q hq
    · rw [hd] at hq
      replace hq : q ∈ updateBalance uid (fun b => b + amt) s.players := hq
      rcases mem_updateBalance uid _ s.players q hq with hmem | ⟨p', hp', rfl⟩
      · exact hinv q hmem
      · exact add_nonneg (hinv p' (findPlayer_mem hp')) hamt
  | bet uid amt code =>
    intro q hq
    simp only [step] at hq
    rcases bet_split uid amt code s with ⟨r, hb, _⟩ | ⟨p, hfind, hv, hle, hdup, hb⟩
    · rw [hb] at hq
      exact hinv q hq
    · rw [hb] at hq
      replace hq : q ∈ updateBalance uid (fun b => b - amt) s.players := hq
      rcases mem_updateBalance uid _ s.players q hq with hmem | ⟨p', hp', rfl⟩
      · exact hinv q hmem
      · rw [hfind] at hp'
        injection hp' with hp'
        subst hp'
        exact sub_nonneg.mpr hle
  | win uid =>
    intro q hq
    simp only [step] at hq
    rcases win_split uid s with ⟨r, hw, _⟩ | ⟨p, g, hfind, hg, hpot, hw⟩
    · rw [hw] at hq
      exact hinv q hq
    · rw [hw] at hq
      replace hq : q ∈ updateBalance uid (fun b => b + g.pot) s.players := hq
      rcases mem_updateBalance uid _ s.players q hq with hmem | ⟨p', hp', rfl⟩
      · exact hinv q hmem
      · exact add_nonneg (hinv p' (findPlayer_mem hp')) (le_of_lt hpot)
  | stats =>
    exact hinv
  | audit =>
    exact hinv

lemma run_preserves_nonneg (ops : List Op) :
    ∀ s : LState, (∀ op ∈ ops, creditNonneg op) →
      (∀ p ∈ s.players, 0 ≤ p.balance) →
      ∀ q ∈ (run ops s).players, 0 ≤ q.balance := by
  induction ops with
  | nil =>
    intro s _ hinv
    exact hinv
  | cons op ops ih =>
    intro s hops hinv
    have h1 := step_preserves_nonneg op s (hops op (List.mem_cons_self op ops)) hinv
    exact ih (step op s) (fun o ho => hops o (List.mem_cons_of_mem op ho)) h1

/- ### Claim C1 -/

/-- C1, counterexample: the claim says no successful Credit can leave a
balance below zero, but `deposit` never validates the amount: a deposit of
-5 on a fresh player succeeds and leaves the balance at -5. -/
theorem C1_cex :
    (deposit "a" "addr" (-5) "s" true (run [Op.join "a" "s"] initState)).2 =
      .ok (-5) ∧
    balance "a" (run [Op.join "a" "s", Op.deposit "a" "addr" (-5) "s" true]
      initState) = some (-5) ∧
    (-5 : Int) < 0 := by
  refine ⟨by decide, by decide, by decide⟩

/-- C1, amended: provided every deposit (Credit) amount in the sequence is
non-negative, every player's balance is non-negative after every sequence of
ledger operations (in particular no successful bet can make it negative,
since a bet requires `balance >= amount`). -/
theorem C1_theorem (ops : List Op) (hops : ∀ op ∈ ops, creditNonneg op) :
    ∀ q ∈ (run ops initState).players, 0 ≤ q.balance :=
  run_preserves_nonneg ops initState hops (by simp [initState])

/-- C1, witness: the amended claim evaluated on a concrete sequence. -/
theorem C1_witness : (0 : Int) ≤ (Player.mk "a" 5 "s").balance :=
  C1_theorem [Op.join "a" "s", Op.deposit "a" "addr" 5 "s" true] (by decide)
    (Player.mk "a" 5 "s") (by decide)

/- ### Invariant preservation for the pot (claim C2) -/

lemma step_pot_nonneg (op : Op) (s : LState) (hop : betNonneg op)
    (h : 0 ≤ potOf s) : 0 ≤ potOf (step op s) := by
  cases op with
  | join uid sec =>
    simp only [step]
    rcases join_split uid sec s with ⟨_, hj⟩ | hj <;> rw [hj] <;> exact h
  | balance uid => exact h
  | deposit uid addr amt code rpcOk =>
    simp only [step]
    rcases deposit_split uid addr amt code rpcOk s with ⟨r, hd, _⟩ | ⟨p, _, _, _, hd⟩ <;>
      rw [hd] <;> exact h
  | bet uid amt code =>
    have hamt : 0 ≤ amt := hop
    simp only [step]
    rcases bet_split uid amt code s with ⟨r, hb, _⟩ | ⟨p, _, _, _, _, hb⟩
    · rw [hb]
      exact h
    · rw [hb]
      exact add_nonneg h hamt
  | win uid =>
    simp only [step]
    rcases win_split uid s with ⟨r, hw, _⟩ | ⟨p, g, _, _, _, hw⟩
    · rw [hw]
      exact h
    · rw [hw]
      exact le_refl 0
  | stats => exact h
  | audit => exact h

lemma step_pot_sum (op : Op) (s : LState) (hop : noSettle op)
    (h : potOf s = sumContrib s) : potOf (step op s) = sumContrib (step op s) := by
  cases op with
  | join uid sec =>
    simp only [step]
    rcases join_split uid sec s with ⟨_, hj⟩ | hj <;> rw [hj] <;> exact h
  | balance uid => exact h
  | deposit uid addr amt code rpcOk =>
    simp only [step]
    rcases deposit_split uid addr amt code rpcOk s with ⟨r, hd, _⟩ | ⟨p, _, _, _, hd⟩ <;>
      rw [hd] <;> exact h
  | bet uid amt code =>
    simp only [step]
    rcases bet_split uid amt code s with ⟨r, hb, _⟩ | ⟨p, _, _, _, _, hb⟩
    · rw [hb]
      exact h
    · rw [hb]
      have h2 : sumContrib
          { players := updateBalance uid (fun b => b - amt) s.players,
            game := some ⟨potOf s + amt⟩,
            game_players := s.game_players ++ [⟨uid, amt⟩] } =
          sumContrib s + amt := by
        simp [sumContrib]
      rw [h2]
      show potOf s + amt = sumContrib s + amt
      rw [h]
  | win uid => exact False.elim hop
  | stats => exact h
  | audit => exact h

lemma run_pot_nonneg (ops : List Op) :
    ∀ s : LState, (∀ op ∈ ops, betNonneg op) → 0 ≤ potOf s →
      0 ≤ potOf (run ops s) := by
  induction ops with
  | nil =>
    intro s _ h
    exact h
  | cons op ops ih =>
    intro s hops h
    exact ih (step op s) (fun o ho => hops o (List.mem_cons_of_mem op ho))
      (step_pot_nonneg op s (hops op (List.mem_cons_self op ops)) h)

lemma run_pot_sum (ops : List Op) :
    ∀ s : LState, (∀ op ∈ ops, noSettle op) → potOf s = sumContrib s →
      potOf (run ops s) = sumContrib (run ops s) := by
  induction ops with
  | nil =>
    intro s _ h
    exact h
  | cons op ops ih =>
    intro s hops h
    exact ih (step op s) (fun o ho => hops o (List.mem_cons_of_mem op ho))
      (step_pot_sum op s (hops op (List.mem_cons_self op ops)) h)

/- ### Claim C2 -/

/-- C2, counterexample: after a bet of 5 is settled by `win`, the pot is 0
while the contribution records still sum to 5, so `pot = sum(contributions)`
fails; and a bet of -3 (never rejected, since `0 >= -3` passes the balance
check) drives the pot to -3 < 0. -/
theorem C2_cex :
    potOf (run [Op.join "a" "s", Op.deposit "a" "addr" 5 "s" true,
      Op.bet "a" 5 "s", Op.win "a"] initState) = 0 ∧
    sumContrib (run [Op.join "a" "s", Op.deposit "a" "addr" 5 "s" true,
      Op.bet "a" 5 "s", Op.win "a"] initState) = 5 ∧
    potOf (run [Op.join "a" "s", Op.bet "a" (-3) "s"] initState) = -3 ∧
    (-3 : Int) < 0 := by
  refine ⟨by decide, by decide, by decide, by decide⟩

/-- C2, amended: provided every bet amount in the sequence is non-negative,
the pot is never negative; and in every sequence containing no settlement
(`win`), the pot equals the sum of the bet amounts of the contribution
records at all times. -/
theorem C2_theorem (ops : List Op) :
    ((∀ op ∈ ops, betNonneg op) → 0 ≤ potOf (run ops initState)) ∧
    ((∀ op ∈ ops, noSettle op) →
      potOf (run ops initState) = sumContrib (run ops initState)) :=
  ⟨fun h => run_pot_nonneg ops initState h (le_refl 0),
   fun h => run_pot_sum ops initState h rfl⟩

/-- C2, witness: the amended claim evaluated on a concrete sequence. -/
theorem C2_witness :
    0 ≤ potOf (run [Op.join "a" "s", Op.bet "a" 0 "s"] initState) ∧
    potOf (run [Op.join "a" "s", Op.bet "a" 0 "s"] initState) =
      sumContrib (run [Op.join "a" "s", Op.bet "a" 0 "s"] initState) :=
  ⟨( C2_theorem [Op.join "a" "s", Op.bet "a" 0 "s"]).1 (by decide),
   ( C2_theorem [Op.join "a" "s", Op.bet "a" 0 "s"]).2 (by decide)⟩

/- ### Claim C3 -/

/-- C3, counterexample: the claim says Credit and PlaceBet with amount ≤ 0
fail with InvalidAmount and change nothing, but neither handler validates the
amount: a deposit of -5 succeeds (changing the balance to -5) and a bet of 0
succeeds. -/
theorem C3_cex :
    (deposit "a" "addr" (-5) "s" true (run [Op.join "a" "s"] initState)).2 =
      .ok (-5) ∧
    balance "a" (deposit "a" "addr" (-5) "s" true
      (run [Op.join "a" "s"] initState)).1 = some (-5) ∧
    (bet "a" 0 "s" (run [Op.join "a" "s"] initState)).2 = .ok 0 0 := by
  refine ⟨by decide, by decide, by decide⟩

/-- C3, amended: the handlers perform no amount validation (there is no
InvalidAmount failure): for a registered player with a valid authorization
code, Credit succeeds for every amount, including amount ≤ 0, adding it to
the balance (assuming the external transfer succeeds); PlaceBet succeeds for
every amount with `amount <= balance`, including amount ≤ 0, moving it into
the pot — provided the player has no contribution record in the existing
game, otherwise the insert violates the `game_players` composite primary key
and the commit raises, persisting nothing. -/
theorem C3_theorem (uid address otp : String) (amount : Int) (s : LState)
    (p : Player) (hp : findPlayer uid s.players = some p)
    (hv : verify_otp p.otp_secret otp = .ok true) :
    (deposit uid address amount otp true s).2 = .ok (p.balance + amount) ∧
    (amount ≤ p.balance →
      (s.game.isSome && s.game_players.any (fun c => c.player_id == uid)) = false →
      (bet uid amount otp s).2 = .ok (p.balance - amount) (potOf s + amount)) := by
  constructor
  · simp [deposit, hp, hv]
  · intro hle hdup
    simp [bet, hp, hv, hle, hdup]

/-- C3, witness: the amended claim evaluated at amount -5 on a fresh player
with no prior contribution. -/
theorem C3_witness :
    (deposit "a" "addr" (-5) "s" true (run [Op.join "a" "s"] initState)).2 =
      .ok ((Player.mk "a" 0 "s").balance + (-5)) ∧
    (bet "a" (-5) "s" (run [Op.join "a" "s"] initState)).2 =
      .ok ((Player.mk "a" 0 "s").balance - (-5))
        (potOf (run [Op.join "a" "s"] initState) + (-5)) :=
  ⟨( C3_theorem "a" "addr" "s" (-5) (run [Op.join "a" "s"] initState)
      (Player.mk "a" 0 "s") (by decide) rfl).1,
   ( C3_theorem "a" "addr" "s" (-5) (run [Op.join "a" "s"] initState)
      (Player.mk "a" 0 "s") (by decide) rfl).2 (by decide) (by decide)⟩

/- ### Claim C4 -/

/-- C4, counterexample: the claim says Settle closes the session and archives
its contributions so that a later PlaceBet opens a fresh session with no
prior contributions. In the code `win` leaves the `Game` row in place (pot
0) and deletes no `GamePlayer` record, so after bet 4 and win the session
still holds the contribution (a, 4); the later bet of 3 by the same player
does not get a fresh session — its insert collides with that record on the
`game_players` composite primary key, raises, and persists nothing. -/
theorem C4_cex :
    (run [Op.join "a" "s", Op.deposit "a" "addr" 10 "s" true, Op.bet "a" 4 "s",
      Op.win "a"] initState).game = some ⟨0⟩ ∧
    (run [Op.join "a" "s", Op.deposit "a" "addr" 10 "s" true, Op.bet "a" 4 "s",
      Op.win "a"] initState).game_players = [⟨"a", 4⟩] ∧
    (bet "a" 3 "s" (run [Op.join "a" "s", Op.deposit "a" "addr" 10 "s" true,
      Op.bet "a" 4 "s", Op.win "a"] initState)).2 = .raised .integrityError ∧
    (bet "a" 3 "s" (run [Op.join "a" "s", Op.deposit "a" "addr" 10 "s" true,
      Op.bet "a" 4 "s", Op.win "a"] initState)).1 =
      run [Op.join "a" "s", Op.deposit "a" "addr" 10 "s" true, Op.bet "a" 4 "s",
        Op.win "a"] initState := by
  refine ⟨by decide, by decide, by decide, by decide⟩

/-- C4, amended: Settle for a registered player with a session whose pot is
positive atomically credits the entire pot and sets the pot to 0, but does
not close the session or archive its contributions: the `Game` row and all
contribution records persist, and a later PlaceBet reuses that session — a
player who already has a contribution record in it collides with the
`game_players` primary key (the commit raises and persists nothing), while a
player without one appends to the existing records; with no session or pot
≤ 0 Settle fails with NoActivePot and changes nothing. -/
theorem C4_theorem (uid uid2 otp2 : String) (amt2 : Int) (s : LState)
    (p p2 : Player) (g : Game)
    (hp : findPlayer uid s.players = some p) :
    (s.game = some g → 0 < g.pot →
      win uid s =
        ({ s with players := updateBalance uid (fun b => b + g.pot) s.players,
                  game := some ⟨0⟩ },
         .ok (p.balance + g.pot))) ∧
    (win uid s).1.game_players = s.game_players ∧
    (s.game = none → win uid s = (s, .noActivePot)) ∧
    (s.game = some g → g.pot ≤ 0 → win uid s = (s, .noActivePot)) ∧
    (findPlayer uid2 (win uid s).1.players = some p2 →
      verify_otp p2.otp_secret otp2 = .ok true →
      amt2 ≤ p2.balance →
      s.game = some g → 0 < g.pot →
      ((s.game_players.any (fun c => c.player_id == uid2) = true →
        bet uid2 amt2 otp2 (win uid s).1 =
          ((win uid s).1, .raised .integrityError)) ∧
       (s.game_players.any (fun c => c.player_id == uid2) = false →
        (bet uid2 amt2 otp2 (win uid s).1).1.game_players =
          s.game_players ++ [⟨uid2, amt2⟩]))) := by
  refine ⟨?_, ?_, ?_, ?_, ?_⟩
  · intro hg hpot
    simp [win, hp, hg, hpot]
  · rcases win_split uid s with ⟨r, hw, _⟩ | ⟨p', g', _, _, _, hw⟩ <;> rw [hw]
  · intro hg
    simp [win, hp, hg]
  · intro hg hpot
    simp [win, hp, hg, not_lt.mpr hpot]
  · intro hfind2 hv2 hle2 hg hpot
    have hw : win uid s =
        ({ s with players := updateBalance uid (fun b => b + g.pot) s.players,
                  game := some ⟨0⟩ },
         .ok (p.balance + g.pot)) := by
      simp [win, hp, hg, hpot]
    rw [hw] at hfind2 ⊢
    dsimp only at hfind2 ⊢
    constructor
    · intro hdup
      simp [bet, hfind2, hv2, hle2, hdup]
    · intro hdup
      simp [bet, hfind2, hv2, hle2, hdup]

/-- C4, witness: the amended claim evaluated on a concrete state with pot 4
(including the integrity failure of the winner's next bet) and on the empty
initial state. -/
theorem C4_witness :
    win "a" (run [Op.join "a" "s", Op.deposit "a" "addr" 10 "s" true,
      Op.bet "a" 4 "s"] initState) =
      ({ run [Op.join "a" "s", Op.deposit "a" "addr" 10 "s" true,
           Op.bet "a" 4 "s"] initState with
         players := updateBalance "a" (fun b => b + (4 : Int))
           (run [Op.join "a" "s", Op.deposit "a" "addr" 10 "s" true,
             Op.bet "a" 4 "s"] initState).players,
         game := some ⟨0⟩ },
       .ok ((Player.mk "a" 6 "s").balance + (4 : Int))) ∧
    bet "a" 3 "s" (win "a" (run [Op.join "a" "s",
        Op.deposit "a" "addr" 10 "s" true, Op.bet "a" 4 "s"] initState)).1 =
      ((win "a" (run [Op.join "a" "s", Op.deposit "a" "addr" 10 "s" true,
        Op.bet "a" 4 "s"] initState)).1, .raised .integrityError) ∧
    win "a" (run [Op.join "a" "s"] initState) =
      (run [Op.join "a" "s"] initState, .noActivePot) :=
  ⟨( C4_theorem "a" "a" "s" 3 (run [Op.join "a" "s",
      Op.deposit "a" "addr" 10 "s" true, Op.bet "a" 4 "s"] initState)
      (Player.mk "a" 6 "s") (Player.mk "a" 10 "s") ⟨4⟩
      (by decide)).1 (by decide) (by decide),
   (( C4_theorem "a" "a" "s" 3 (run [Op.join "a" "s",
      Op.deposit "a" "addr" 10 "s" true, Op.bet "a" 4 "s"] initState)
      (Player.mk "a" 6 "s") (Player.mk "a" 10 "s") ⟨4⟩
      (by decide)).2.2.2.2 (by decide) rfl (by decide) (by decide)
      (by decide)).1 (by decide),
   (( C4_theorem "a" "a" "s" 3 (run [Op.join "a" "s"] initState)
      (Player.mk "a" 0 "s") (Player.mk "a" 0 "s") ⟨1⟩
      (by decide)).2.2.1 (by decide))⟩

/- ### Claim C5 -/

/-- C5, counterexample: the claim says `Verify` never raises for any input,
but `hmac.compare_digest` on the non-ASCII string "é" raises `TypeError`,
even when the submitted code equals the stored secret. -/
theorem C5_cex : verify_otp "é" "é" = .error .typeError := rfl

/-- C5, amended: for ASCII-only inputs, `Verify` returns true iff the stored
secret and the submitted code are exactly equal and never raises; when either
input is a non-ASCII string it raises `TypeError` instead of returning false. -/
theorem C5_theorem (s c : String) :
    (isAscii s = true → isAscii c = true → verify_otp s c = .ok (s == c)) ∧
    ((isAscii s && isAscii c) = false → verify_otp s c = .error .typeError) := by
  constructor
  · intro hs hc
    exact verify_otp_ascii s c hs hc
  · intro h
    unfold verify_otp compare_digest
    rw [h]
    simp

/-- C5, witness: the amended claim evaluated on concrete inputs. -/
theorem C5_witness :
    verify_otp "abc" "abd" = .ok ("abc" == "abd") ∧
    verify_otp "é" "ok" = .error .typeError :=
  ⟨( C5_theorem "abc" "abd").1 rfl rfl, ( C5_theorem "é" "ok").2 rfl⟩

/- ### Claim C9 -/

/-- C9: the comparison loop of `verify_otp` runs in constant time: its
iteration count on any two same-length byte sequences equals the iteration
count on any other pair of that length, so it cannot depend on the position
of the first mismatched byte. -/
theorem C9_theorem (a b c d : List Nat) (hab : a.length = b.length)
    (hcd : c.length = d.length) (hbd : b.length = d.length) :
    tscmpTime a b = tscmpTime c d := by
  rw [tscmpTime_eq, tscmpTime_eq, hbd]

/-- C9, witness: a pair mismatching in the last byte takes exactly as many
loop iterations as a pair mismatching in the first byte. -/
theorem C9_witness : tscmpTime [7, 1] [7, 2] = tscmpTime [9, 9] [8, 9] :=
  C9_theorem [7, 1] [7, 2] [9, 9] [8, 9] rfl rfl rfl

/- ### Claim C6 -/

/-- C6: for a registered player with a valid authorization code, a bet of
more than the current balance fails with InsufficientBalance and leaves the
entire state (balances and pot) unchanged. -/
theorem C6_theorem (uid otp : String) (amount : Int) (s : LState) (p : Player)
    (hp : findPlayer uid s.players = some p)
    (hv : verify_otp p.otp_secret otp = .ok true)
    (hgt : p.balance < amount) :
    bet uid amount otp s = (s, .insufficient) := by
  simp [bet, hp, hv, not_le.mpr hgt]

/-- C6, witness: betting 7 with balance 0 fails and changes nothing. -/
theorem C6_witness :
    bet "a" 7 "s" (run [Op.join "a" "s"] initState) =
      (run [Op.join "a" "s"] initState, .insufficient) :=
  C6_theorem "a" "s" 7 (run [Op.join "a" "s"] initState) (Player.mk "a" 0 "s")
    (by decide) rfl (by decide)

/- ### Claim C7 -/

/-- C7, counterexample: the claim says equal balances are ordered by identity
ascending, but the SQL query orders by balance only, with no secondary sort
key, so no identity tie order is guaranteed: in the embedded refinement
(ties in table order) registering "b" then "a" (both balance 0) returns "b"
first, not the identity order "a" first. -/
theorem C7_cex :
    stats (run [Op.join "b" "sb", Op.join "a" "sa"] initState) =
      [("b", 0), ("a", 0)] ∧
    [(("b" : String), (0 : Int)), ("a", 0)] ≠ [("a", 0), ("b", 0)] := by
  refine ⟨by decide, by decide⟩

/-- C7, amended: the leaderboard returns at most 10 entries (the hard-coded
limit), ordered by balance descending — with no guaranteed order among equal
balances, in particular not identity-ascending — and it has no side effect
on the state. -/
theorem C7_theorem (s : LState) :
    (stats s).length ≤ 10 ∧
    List.Pairwise (fun x y : String × Int => y.2 ≤ x.2) (stats s) ∧
    step Op.stats s = s := by
  refine ⟨?_, ?_, rfl⟩
  · unfold stats
    rw [List.length_map]
    exact List.length_take_le 10 _
  · unfold stats orderByBalanceDesc
    have hsorted : List.Pairwise balGE (List.insertionSort balGE s.players) :=
      List.sorted_insertionSort balGE s.players
    have htake : List.Pairwise balGE
        (List.take 10 (List.insertionSort balGE s.players)) :=
      List.Pairwise.sublist (List.take_sublist 10 _) hsorted
    exact List.Pairwise.map _ (fun a b hab => hab) htake

/- ### Claim C8 -/

/-- C8: registering a fresh identity and then reading the balance yields 0;
a subsequent deposit of 5 with the player's own (ASCII) secret as the code,
with the external transfer succeeding, makes the balance read 5. -/
theorem C8_theorem (uid freshSecret address : String) (s : LState)
    (hfresh : findPlayer uid s.players = none)
    (ha : isAscii freshSecret = true) :
    balance uid (join uid freshSecret s).1 = some 0 ∧
    balance uid (deposit uid address 5 freshSecret true
      (join uid freshSecret s).1).1 = some 5 := by
  have hjoin : (join uid freshSecret s).1 =
      { s with players := s.players ++ [⟨uid, 0, freshSecret⟩] } := by
    simp [join, hfresh]
  have hfind2 : findPlayer uid (s.players ++ [⟨uid, 0, freshSecret⟩]) =
      some ⟨uid, 0, freshSecret⟩ := by
    unfold findPlayer at hfresh ⊢
    rw [List.find?_append, hfresh]
    simp [List.find?_cons]
  have hv : verify_otp freshSecret freshSecret = .ok true := by
    rw [verify_otp_ascii _ _ ha ha]
    simp
  constructor
  · rw [hjoin]
    simp [balance, hfind2]
  · rw [hjoin]
    simp [deposit, hfind2, hv, balance, findPlayer_updateBalance]

/-- C8, witness: the round trip evaluated from the empty database. -/
theorem C8_witness :
    balance "alice" (join "alice" "s" initState).1 = some 0 ∧
    balance "alice" (deposit "alice" "addr" 5 "s" true
      (join "alice" "s" initState).1).1 = some 5 :=
  C8_theorem "alice" "s" "addr" initState rfl rfl

/- ### Claim C10 -/

/-- C10: every successful bet and every successful settlement conserves total
value: the sum of all balances plus the pot is unchanged (the bet moves
exactly the bet amount into the pot; the settlement moves exactly the pot
into the winner's balance). -/
theorem C10_theorem (uid otp : String) (amount : Int) (s : LState)
    (nb pt nb2 : Int) :
    ((bet uid amount otp s).2 = .ok nb pt →
      totalValue (bet uid amount otp s).1 = totalValue s) ∧
    ((win uid s).2 = .ok nb2 →
      totalValue (win uid s).1 = totalValue s) := by
  constructor
  · intro hok
    rcases bet_split uid amount otp s with ⟨r, hb, hne⟩ | ⟨p, hfind, hv, hle, hdup, hb⟩
    · rw [hb] at hok
      exact absurd hok (hne nb pt)
    · rw [hb]
      unfold totalValue
      dsimp only [potOf]
      rw [totalBal_updateBalance uid _ s.players p hfind]
      ring
  · intro hok
    rcases win_split uid s with ⟨r, hw, hne⟩ | ⟨p, g, hfind, hg, hpot, hw⟩
    · rw [hw] at hok
      exact absurd hok (hne nb2)
    · rw [hw]
      unfold totalValue
      dsimp only [potOf]
      rw [totalBal_updateBalance uid _ s.players p hfind]
      simp only [hg]
      ring

/-- C10, witness: conservation evaluated on a concrete bet and a concrete
settlement. -/
theorem C10_witness :
    totalValue (bet "a" 4 "s" (run [Op.join "a" "s",
      Op.deposit "a" "addr" 10 "s" true] initState)).1 =
      totalValue (run [Op.join "a" "s",
        Op.deposit "a" "addr" 10 "s" true] initState) ∧
    totalValue (win "a" (run [Op.join "a" "s", Op.deposit "a" "addr" 10 "s" true,
      Op.bet "a" 4 "s"] initState)).1 =
      totalValue (run [Op.join "a" "s", Op.deposit "a" "addr" 10 "s" true,
        Op.bet "a" 4 "s"] initState) :=
  ⟨( C10_theorem "a" "s" 4 (run [Op.join "a" "s",
      Op.deposit "a" "addr" 10 "s" true] initState) 6 4 0).1 (by decide),
   ( C10_theorem "a" "s" 0 (run [Op.join "a" "s", Op.deposit "a" "addr" 10 "s" true,
      Op.bet "a" 4 "s"] initState) 0 0 10).2 (by decide)⟩

end CryptoBot
